import Mathlib

/-!
Verification of the wire core of the `amqp-client` streaming AMQP 0-9-1 client.

The development shallowly embeds the runtime core (frame codec, frame
demuxer, connection channel allocation, abstract channel request/response
machinery, unique-id factory, publisher/consumer content assembly) as
executable Lean definitions over `List Nat` byte buffers, and proves or
refutes the specification claims about them.

Modelling conventions:
* a Node.js `Buffer` is a `List Nat` of byte values;
* JavaScript strings are represented by their UTF-8 byte lists where the
  byte content matters, by `String` where only identity matters;
* fallible operations (`Buffer` reads past the end, codec `RangeError`s)
  return `Option`/`Except` where the JavaScript code throws;
* `Buffer.allocUnsafe` is modelled as a zero-filled buffer; every theorem
  below is about frames whose every byte is explicitly written by the code,
  so the choice of initial contents is immaterial;
* JavaScript `Map` preserves insertion order; it is modelled by ordered
  association lists, with `set` keeping the position of an existing key.
-/

/-! ## Byte-level primitives (proto/codec.ts integer I/O, big-endian) -/

/-- Big-endian 2-byte encoding of a 16-bit value (`writeUInt16BE`). -/
def be16 (n : Nat) : List Nat := [n / 256 % 256, n % 256]

/-- Big-endian 4-byte encoding of a 32-bit value (`writeUInt32BE`). -/
def be32 (n : Nat) : List Nat :=
  [n / 2 ^ 24 % 256, n / 2 ^ 16 % 256, n / 2 ^ 8 % 256, n % 256]

/-- Big-endian 8-byte encoding of a 64-bit value (`writeBigUInt64BE`). -/
def be64 (n : Nat) : List Nat := be32 (n / 2 ^ 32) ++ be32 (n % 2 ^ 32)

/-- Big-endian read of 2 bytes (`readUInt16BE`). -/
def rd16 (b0 b1 : Nat) : Nat := b0 * 256 + b1

/-- Big-endian read of 4 bytes (`readUInt32BE`). -/
def rd32 (b0 b1 b2 b3 : Nat) : Nat :=
  b0 * 2 ^ 24 + b1 * 2 ^ 16 + b2 * 2 ^ 8 + b3

/-- Cursor-style read of one byte; `none` models the `RangeError` thrown by
`Buffer.readUInt8` when the offset is past the end of the buffer. -/
def readU8 : List Nat → Option (Nat × List Nat)
  | [] => none
  | b :: rest => some (b, rest)

/-- Cursor-style big-endian read of two bytes (`BufferReader.uint16`). -/
def readU16 : List Nat → Option (Nat × List Nat)
  | b0 :: b1 :: rest => some (rd16 b0 b1, rest)
  | _ => none

/-- Cursor-style big-endian read of four bytes (`BufferReader.uint32`). -/
def readU32 : List Nat → Option (Nat × List Nat)
  | b0 :: b1 :: b2 :: b3 :: rest => some (rd32 b0 b1 b2 b3, rest)
  | _ => none

/-- Cursor-style big-endian read of eight bytes (`BufferReader.uint64`). -/
def readU64 : List Nat → Option (Nat × List Nat)
  | b0 :: b1 :: b2 :: b3 :: b4 :: b5 :: b6 :: b7 :: rest =>
    some (rd16 b0 b1 * 2 ^ 48 + rd16 b2 b3 * 2 ^ 32 + rd16 b4 b5 * 2 ^ 16 + rd16 b6 b7, rest)
  | _ => none

/-! ## UniqueId and UniqueFactory (lib/channel.ts lines 83-107)

`UniqueId` carries `time = Date.now()` and `sequence = 0`;
`compare` orders by time difference, then sequence difference.
`UniqueFactory.generate()` builds a fresh id at the current clock value,
copies `last_id.sequence + 1` into it when the clock value equals
`last_id.time`, and returns it.  The source never reassigns
`UniqueFactory.last_id`, so the factory state after a call is unchanged —
this is modelled faithfully by returning the old state. -/

structure UniqueIdT where
  time : Nat
  seq : Nat
deriving DecidableEq

/-- The `UniqueId.compare` method: time difference if non-zero, else
sequence difference (a JavaScript number, here `Int`). -/
def uidCompare (a b : UniqueIdT) : Int :=
  if (a.time : Int) - b.time ≠ 0 then (a.time : Int) - b.time
  else (a.seq : Int) - b.seq

/-- One call of `UniqueFactory.generate()` at wall-clock millisecond `now`,
with the factory's stored `last_id` as explicit state.  Returns the
generated id and the factory state after the call; the source code never
writes `this.last_id`, so the returned state is the unchanged `last`. -/
def factoryGenerate (last : UniqueIdT) (now : Nat) : UniqueIdT × UniqueIdT :=
  let id : UniqueIdT := { time := now, seq := if now = last.time then last.seq + 1 else 0 }
  (id, last)

/-! ## ChannelConsume basic.deliver handler (lib/consumer.ts lines 82-88)

State: `_consumer_tag` starts `undefined` and is set (possibly to `""`)
from the `basic.consume-ok` reply; `_input.destroyed` guards the push.
The handler destroys the channel with a `no_consumers` soft error when
`this._consumer_tag` is truthy (a recorded, non-empty tag) and the
delivery's tag differs; otherwise it pushes the deliver chunk unless the
input readable is destroyed. -/

inductive DeliverOutcome where
  | destroyNoConsumers
  | ignored
  | pushed
deriving DecidableEq

/-- The `basic_deliver` handler of `ChannelConsume`.  `ct` is the recorded
`_consumer_tag` (`none` before `subscribe` records one), `inputDestroyed`
is `this._input.destroyed`, `tag` is `args.consumer_tag`. -/
def basicDeliverHandler (ct : Option String) (inputDestroyed : Bool) (tag : String) :
    DeliverOutcome :=
  match ct with
  | some t =>
    if t ≠ "" ∧ tag ≠ t then .destroyNoConsumers
    else if inputDestroyed then .ignored else .pushed
  | none => if inputDestroyed then .ignored else .pushed

/-! ## Channel allocation (lib/channel.ts `Connection.channel_open`, lines 635-674)

The source collects the current channel ids with
`Array.from(this.channels.keys()).sort()`.  `Array.prototype.sort` without
a comparator converts every element to a string and sorts the strings in
ascending lexicographic (UTF-16 code unit) order, even for numbers, so for
example `10` sorts before `2`.  The model reproduces exactly that order on
the decimal representations produced by JavaScript number-to-string
conversion (which agrees with `Nat.repr` for these integer ids). -/

/-- Lexicographic strict order on UTF-16 code-unit lists (for the decimal
digits used here, `Char.toNat` equals the code unit). -/
def strLtChars : List Char → List Char → Bool
  | [], [] => false
  | [], _ :: _ => true
  | _ :: _, [] => false
  | a :: as, b :: bs =>
    if a.toNat < b.toNat then true
    else if b.toNat < a.toNat then false
    else strLtChars as bs

/-- The key order used by JavaScript default `sort` on number ids: compare
their decimal string representations lexicographically. -/
def jsKeyLe (m n : Nat) : Bool := ! strLtChars (Nat.repr n).data (Nat.repr m).data

/-- Insert into a list sorted ascending by `jsKeyLe`. -/
def insertByKey (m : Nat) : List Nat → List Nat
  | [] => [m]
  | n :: rest => if jsKeyLe m n then m :: n :: rest else n :: insertByKey m rest

/-- The result of `Array.from(keys).sort()`: ascending in the
string-lexicographic order.  (The ids are pairwise distinct map keys, so
any correct sorting algorithm produces this same list.) -/
def jsSortNums (l : List Nat) : List Nat := l.foldr insertByKey []

/-- The downward gap search `for (let i = last_id - 1; i > 0; i--)`: the
largest `i` in `1..=start` that is not a current channel id; if the loop
finds none, the enclosing `id` variable keeps its initial value `1`. -/
def findFreeDesc (channels : List Nat) : Nat → Nat
  | 0 => 1
  | i + 1 => if channels.contains (i + 1) then findFreeDesc channels i else i + 1

/-- The id chosen by `Connection.channel_open` given the current channel
ids (the keys of `this.channels`, in insertion order). -/
def allocId (channels : List Nat) : Nat :=
  let ids := jsSortNums channels
  match ids.getLast? with
  | none => 1
  | some last_id =>
    if ids.length < last_id then findFreeDesc channels (last_id - 1)
    else last_id + 1

/-- JavaScript `Map.set`: an existing key keeps its position in iteration
order (its value is overwritten); a new key is appended. -/
def mapSet (channels : List Nat) (id : Nat) : List Nat :=
  if channels.contains id then channels else channels ++ [id]

/-- The allocation path of `channel_open` on an active connection (the
`!opened || destroyed || blocked` rejection is outside this model): reject
with `none` when `channels.size === channel_max`, otherwise choose the id
and register it with `this.channels.set(id, result)`. -/
def channelOpen (channels : List Nat) (channel_max : Nat) : Option (Nat × List Nat) :=
  if channels.length = channel_max then none
  else
    let id := allocId channels
    some (id, mapSet channels id)

/-- Iterate `channel_open` `n` times starting from an empty channel map
(each open succeeding and registering its id). -/
def openIter (cmax : Nat) : Nat → List Nat
  | 0 => []
  | n + 1 =>
    match channelOpen (openIter cmax n) cmax with
    | none => openIter cmax n
    | some (_, chs) => chs

/-- Modelled from the spec: the lowest unused id in `1..=channel_max` is
"the smallest positive integer not in S" (claim C3).  The smallest free id
always lies in `1..=|S|+1`. -/
def lowestUnused (channels : List Nat) : Nat :=
  (((List.range' 1 (channels.length + 1)).filter (fun k => ! channels.contains k)).headD 1)

/-! ## Field values and typed codec methods (proto/codec.ts)

`FVal` is the modelled domain of AMQP field values: strings (as UTF-8 byte
lists), non-negative integer numbers below `2^32`, `Date`s (as epoch
milliseconds), booleans, nested field tables and field arrays.
JavaScript values outside this domain (negative or fractional numbers,
which the source sends through the float64 `'d'` branch, bigints,
`Buffer`s, `null`) are not needed by any theorem below. -/

inductive FVal where
  | vstr (bytes : List Nat)
  | vnum (n : Nat)
  | vdate (ms : Nat)
  | vtable (entries : List (List Nat × FVal))
  | vbool (b : Bool)
  | varr (items : List FVal)

/-- Key charset `^[A-z$#]` of `RE_FieldName` (note: the source's `A-z`
spans code points 65..122, which includes `[ \ ] ^ _` and the backquote). -/
def fieldHeadOk (c : Nat) : Bool := (65 ≤ c && c ≤ 122) || c == 36 || c == 35

/-- Tail charset `[A-z0-9$#_.]` of `RE_FieldName`. -/
def fieldTailOk (c : Nat) : Bool :=
  fieldHeadOk c || (48 ≤ c && c ≤ 57) || c == 95 || c == 46

/-- The `RE_FieldName` test `/^[A-z$#][A-z0-9$#_.]\x7b0,127\x7d$/` on a key
given as its code-point list. -/
def fieldNameOk : List Nat → Bool
  | [] => false
  | c :: rest => fieldHeadOk c && rest.length ≤ 127 && rest.all fieldTailOk

/-- The writer's `shortstr`: a `u8` length then the bytes; the length write
throws (here `none`) when the byte length exceeds 255. -/
def shortstrWrite (bytes : List Nat) : Option (List Nat) :=
  if bytes.length ≤ 255 then some (bytes.length :: bytes) else none

/-- The writer's `timestamp`: `u64` whole seconds, `Math.floor(ms / 1000)`. -/
def timestampWrite (ms : Nat) : Option (List Nat) :=
  if ms / 1000 < 2 ^ 64 then some (be64 (ms / 1000)) else none

/-- The reader's `timestamp`: `u64` seconds, rejected above 8,640,000,000,000,
then converted back to milliseconds by multiplying with 1000. -/
def timestampRead (bytes : List Nat) : Option (Nat × List Nat) := do
  let (s, rest) ← readU64 bytes
  if s > 8640000000000 then none else pure (s * 1000, rest)

mutual

/-- The writer's `tableitem` (dispatch on the JavaScript runtime type of the
value, then one type octet and the payload): booleans take `'t'` (116) with
a 1-or-0 octet, unsigned integers `'B'`/`'u'`/`'i'` (66/117/105) by size,
strings `'S'` (83) with a `u32` length, `Date`s `'T'` (84), plain objects
`'F'` (70) and arrays `'A'` (65) with `u32`-length-prefixed bodies.  The
`u32` length writes throw (`none`) at `2^32` and beyond, as
`writeUInt32BE` does; integers at or above `2^32` take the float64 branch
in the source and are not modelled.  Fuel bounds table nesting; every
actual call gets fuel at least the value's size. -/
def tableItemWrite : Nat → FVal → Option (List Nat)
  | 0, _ => none
  | _ + 1, .vbool b => some [116, if b then 1 else 0]
  | _ + 1, .vnum n =>
    if n < 256 then some [66, n]
    else if n < 65536 then some (117 :: be16 n)
    else if n < 2 ^ 32 then some (105 :: be32 n)
    else none
  | _ + 1, .vstr bytes =>
    if bytes.length < 2 ^ 32 then some (83 :: (be32 bytes.length ++ bytes)) else none
  | _ + 1, .vdate ms => (timestampWrite ms).map (fun b => 84 :: b)
  | fuel + 1, .vtable entries =>
    match tableEntriesWrite fuel entries with
    | some body =>
      if body.length < 2 ^ 32 then some (70 :: (be32 body.length ++ body)) else none
    | none => none
  | fuel + 1, .varr items =>
    match arrItemsWrite fuel items with
    | some body =>
      if body.length < 2 ^ 32 then some (65 :: (be32 body.length ++ body)) else none
    | none => none

/-- The writer's `tableitems`: each key is charset-checked, written as a
`shortstr`, and followed by its `tableitem`. -/
def tableEntriesWrite : Nat → List (List Nat × FVal) → Option (List Nat)
  | 0, _ => none
  | _ + 1, [] => some []
  | fuel + 1, (k, v) :: rest =>
    if fieldNameOk k then do
      let key ← shortstrWrite k
      let item ← tableItemWrite fuel v
      let tail ← tableEntriesWrite fuel rest
      pure (key ++ item ++ tail)
    else none

/-- The item loop of the writer's `array`: each element written as a
`tableitem`, no keys. -/
def arrItemsWrite : Nat → List FVal → Option (List Nat)
  | 0, _ => none
  | _ + 1, [] => some []
  | fuel + 1, v :: rest => do
    let item ← tableItemWrite fuel v
    let tail ← arrItemsWrite fuel rest
    pure (item ++ tail)

end

mutual

/-- The reader's `tableitem`: a type octet then the payload, dispatched
through `CHAR_METHODS`.  Chars for value kinds outside the modelled domain
(`b s I L l f d D V x`) and unknown chars return `none` (the source throws
for unknown chars and the others carry values that no theorem below
exercises). -/
def tableItemRead : Nat → List Nat → Option (FVal × List Nat)
  | 0, _ => none
  | fuel + 1, bytes => do
    let (c, rest) ← readU8 bytes
    if c == 116 then (readU8 rest).map (fun (n, r) => (.vbool (decide (0 < n)), r))
    else if c == 66 then (readU8 rest).map (fun (n, r) => (.vnum n, r))
    else if c == 117 then (readU16 rest).map (fun (n, r) => (.vnum n, r))
    else if c == 105 then (readU32 rest).map (fun (n, r) => (.vnum n, r))
    else if c == 83 then do
      let (len, r1) ← readU32 rest
      pure (.vstr (r1.take len), r1.drop len)
    else if c == 84 then (timestampRead rest).map (fun (ms, r) => (.vdate ms, r))
    else if c == 70 then do
      let (len, r1) ← readU32 rest
      if len = 0 then pure (.vtable [], r1)
      else if r1.length < len then none
      else do
        let entries ← tableEntriesRead fuel (r1.take len)
        pure (.vtable entries, r1.drop len)
    else if c == 65 then do
      let (len, r1) ← readU32 rest
      if len = 0 then pure (.varr [], r1)
      else if r1.length < len then none
      else do
        let items ← arrItemsRead fuel (r1.take len)
        pure (.varr items, r1.drop len)
    else none

/-- The reader's `tableitems` over the slice up to the declared end: keys
read as `shortstr` and charset-checked; the offset must land exactly on the
declared end (a key or item running past it is the source's
`Unexpected table end` / out-of-bounds error, `none` here). -/
def tableEntriesRead : Nat → List Nat → Option (List (List Nat × FVal))
  | 0, _ => none
  | _ + 1, [] => some []
  | fuel + 1, bytes => do
    let (klen, r1) ← readU8 bytes
    if r1.length < klen then none
    else if fieldNameOk (r1.take klen) then do
      let (v, r2) ← tableItemRead fuel (r1.drop klen)
      let rest ← tableEntriesRead fuel r2
      pure ((r1.take klen, v) :: rest)
    else none

/-- The item loop of the reader's `array` over the slice up to the declared
end, with the source's exact-end check (`Unexpected array end`). -/
def arrItemsRead : Nat → List Nat → Option (List FVal)
  | 0, _ => none
  | _ + 1, [] => some []
  | fuel + 1, bytes => do
    let (v, r2) ← tableItemRead fuel bytes
    let rest ← arrItemsRead fuel r2
    pure (v :: rest)

end

mutual

/-- Validity of the embedded `Date`s of a field value: the writer floors
milliseconds to seconds and the reader rejects seconds above
8,640,000,000,000, so a value round-trips only when every embedded date is
a whole-second date within that range.  Fuel as in the codecs. -/
def datesOk : Nat → FVal → Bool
  | 0, _ => false
  | _ + 1, .vdate ms => ms % 1000 == 0 && ms / 1000 ≤ 8640000000000
  | _ + 1, .vbool _ => true
  | _ + 1, .vstr _ => true
  | _ + 1, .vnum _ => true
  | fuel + 1, .vtable entries => entriesDatesOk fuel entries
  | fuel + 1, .varr items => arrDatesOk fuel items

/-- `datesOk` over the entries of a field table. -/
def entriesDatesOk : Nat → List (List Nat × FVal) → Bool
  | 0, _ => false
  | _ + 1, [] => true
  | fuel + 1, (_, v) :: rest => datesOk fuel v && entriesDatesOk fuel rest

/-- `datesOk` over the items of a field array. -/
def arrDatesOk : Nat → List FVal → Bool
  | 0, _ => false
  | _ + 1, [] => true
  | fuel + 1, v :: rest => datesOk fuel v && arrDatesOk fuel rest

end

/-! ## The decimal codec (proto/codec.ts lines 156-160 and 398-429)

The `value > 0` branch of `BufferWriter.decimal` splits the JavaScript
number into `long_value = Math.floor(value)` and the digit string
`fraction = (value - long_value).toFixed(256).slice(2).replace(/0+$/, "")`.
A finite double's fractional part is a dyadic rational with a finite exact
decimal expansion, and `toFixed(256)` renders that expansion exactly
whenever it has at most 256 fractional digits, so the model takes the
floor and the trailing-zero-stripped digit list as the two components of
the input number.  The digit loop then greedily packs digits into
`long_value` while `long_value * 10 + digit` stays at or below
`MAX_UINT32 = 4294967296`, counting `fraction_size`; the output is the
`fraction_size` octet (a `u8`, which throws above 255) followed by the
`u32` `long_value` (`writeUInt32BE` throws at `2^32`).  The `value === 0`
branch writes five zero octets, which the model reproduces as the pair
`(0, [])`; negative values throw and are outside the `Nat` domain.

`BufferReader.decimal` reads the two fields back and returns the number
`long_value / 10 ** fraction_size`; the model returns the pair, the
decoded value being that quotient. -/

/-- Overwrite `bs` into `l` starting at position `pos` (`Buffer.write*` at
an explicit offset).  Positions beyond the end leave `l` unchanged; all
uses below are in bounds. -/
def setBytes (l : List Nat) (pos : Nat) : List Nat → List Nat
  | [] => l
  | b :: rest => setBytes (l.set pos b) (pos + 1) rest

structure WriterM where
  buf : List Nat
  off : Nat

/-- A fresh static writer: `new BufferWriter(size, false)`;
`Buffer.allocUnsafe` contents modelled as zeros. -/
def wAlloc (size : Nat) : WriterM := ⟨List.replicate size 0, 0⟩

/-- `framestart`: frame type octet, 2-octet channel, 4-octet size, cursor
to 7. -/
def wFramestart (w : WriterM) (ft ch size : Nat) : WriterM :=
  ⟨setBytes w.buf 0 ([ft] ++ be16 ch ++ be32 size), 7⟩

/-- `methodstart`: `framestart` with the method frame type, then the
4-octet method id at 7, cursor to 11. -/
def wMethodstart (w : WriterM) (ch size mid : Nat) : WriterM :=
  let w' := wFramestart w 1 ch size
  ⟨setBytes w'.buf 7 (be32 mid), 11⟩

/-- A static `safewrite` of the given bytes at the cursor (covers `uint8`
and friends on a preallocated buffer). -/
def wPut (w : WriterM) (bs : List Nat) : WriterM :=
  ⟨setBytes w.buf w.off bs, w.off + bs.length⟩

/-- `frameend`: one octet `0xCE` (206) at the cursor. -/
def wFrameend (w : WriterM) : WriterM := wPut w [206]

/-- `setframelength`: backfill the 4-octet size field at offset 3 with
`offset - EMPTY_FRAME_SIZE` (`EMPTY_FRAME_SIZE = 8`). -/
def wSetframelength (w : WriterM) : WriterM :=
  ⟨setBytes w.buf 3 (be32 (w.off - 8)), w.off⟩

/-- `heartbeat()`: a complete heartbeat frame (`framestart(8, 0, 0)` then
`frameend`). -/
def heartbeatFrame : List Nat := (wFrameend (wFramestart (wAlloc 8) 8 0 0)).buf

/-- `writeVoid`: an argument-less method frame — a 12-octet static buffer,
`methodstart(channel, 4, method_id)`, `frameend`. -/
def writeVoidFrame (mid ch : Nat) : List Nat :=
  (wFrameend (wMethodstart (wAlloc 12) ch 4 mid)).buf

/-- `writeBodyOne`: one body frame — a static buffer of `8 + body.length`,
`framestart(3, channel, body.length)`, the body copied at offset 7, and
`0xCE` written at `7 + body.length`. -/
def writeBodyOneFrame (ch : Nat) (body : List Nat) : List Nat :=
  let w := wFramestart (wAlloc (8 + body.length)) 3 ch body.length
  setBytes (setBytes w.buf 7 body) (7 + body.length) [206]

/-- The dynamic `safewrite`: grow the buffer by the needed size plus 1024
when the write would overflow, then write at the cursor. -/
def wDynPut (w : WriterM) (bs : List Nat) : WriterM :=
  let need := w.off + bs.length
  let buf := if need ≤ w.buf.length then w.buf
             else w.buf ++ List.replicate (need - w.buf.length + 1024) 0
  ⟨setBytes buf w.off bs, need⟩

/-- The generated dynamically-sized method frame pattern
(`parse_xml` generator, api.ts emitters): `methodstart(channel, 0, id)`,
the encoded arguments, `frameend()`, `setframelength()`; `writeSocket`
then sends `buffer.subarray(0, offset)`. -/
def dynMethodFrame (initial ch mid : Nat) (args : List Nat) : List Nat :=
  let w0 := wMethodstart (wAlloc initial) ch 0 mid
  let w1 := wDynPut w0 args
  let w2 := wDynPut w1 [206]
  let w3 := wSetframelength w2
  w3.buf.take w3.off

/-- The 4-octet `payload_size` field of a frame, read from offsets 3..6. -/
def sizeField (f : List Nat) : Nat :=
  rd32 (f.getD 3 0) (f.getD 4 0) (f.getD 5 0) (f.getD 6 0)

/-! ## The frame demuxer `DecodeStream` (lib/channel.ts lines 228-346)

`_writevAsync` concatenates the carry-over cache with the incoming chunks,
buffers anything shorter than `EMPTY_FRAME_SIZE = 8`, and otherwise runs
the decoder (`_init` on the very first buffer, `_decode` afterwards).
`_decode` reads a 7-octet frame start, loops while the full frame
(`size + 1 + offset ≤ buffer.length`) is available, checks the trailing
`0xCE`, resolves the channel, dispatches, skips the end octet, caches a
remainder shorter than 8, or reads the next frame start.  When the loop
exits because the next frame is incomplete, the source only assigns the
cache under `buffer.length === reader.offset` — which cannot hold there —
so the partial frame's bytes are discarded.

Method and header frames dispatch through the generated `DECODERS` tables,
which are a build artifact outside `src/`; no theorem below exercises
them, and the model reports them as an unmodelled dispatch.  Body and
heartbeat frames are modelled exactly. -/

inductive FrameEvent where
  | heartbeatEv (ch : Nat)
  | bodyEv (ch : Nat) (payload : List Nat)
deriving DecidableEq

inductive DecodeErr where
  | protocolMismatch
  | badEnd
  | unknownChannel
  | badFrameType
  | unmodeledDispatch
  | fuelOut
deriving DecidableEq

/-- `_decodeframestart` at absolute offset `o`: frame type, channel, size
(all reads are in bounds whenever the source performs them, so `getD`). -/
def frameStartAt (buf : List Nat) (o : Nat) : Nat × Nat × Nat :=
  (buf.getD o 0, rd16 (buf.getD (o + 1) 0) (buf.getD (o + 2) 0),
   rd32 (buf.getD (o + 3) 0) (buf.getD (o + 4) 0) (buf.getD (o + 5) 0) (buf.getD (o + 6) 0))

/-- The `while` loop of `_decode`.  `off` is the reader offset (just past
the 7-octet frame start), `fs` the current frame start, `acc` the events
dispatched so far.  Returns the events, the new cache, and an error if one
was thrown.  Fuel `buf.length + 1` always suffices since each iteration
advances the offset by at least 8. -/
def decodeLoop (channels buf : List Nat) :
    Nat → Nat → Nat × Nat × Nat → List FrameEvent → List FrameEvent × List Nat × Option DecodeErr
  | 0, _, _, acc => (acc, [], some .fuelOut)
  | fuel + 1, off, (ft, ch, size), acc =>
    if size + 1 + off ≤ buf.length then
      if buf.getD (size + off) 0 ≠ 206 then (acc, [], some .badEnd)
      else if ¬(ch = 0 ∨ channels.contains ch) then (acc, [], some .unknownChannel)
      else
        let ev? : Option (FrameEvent × Nat) :=
          if ft = 3 then some (.bodyEv ch ((buf.drop off).take size), size)
          else if ft = 8 then some (.heartbeatEv ch, 0)
          else none
        match ev? with
        | none =>
          (acc, [], some (if ft = 1 ∨ ft = 2 then .unmodeledDispatch else .badFrameType))
        | some (ev, consumed) =>
          let off2 := off + consumed + 1
          let unread := buf.length - off2
          if unread < 8 then
            (acc ++ [ev], if unread ≠ 0 then buf.drop off2 else [], none)
          else
            decodeLoop channels buf fuel (off2 + 7) (frameStartAt buf off2) (acc ++ [ev])
    else
      -- Loop exit with an incomplete frame: the source's
      -- `if (buffer.length === reader.offset)` guard is false here (at
      -- least one byte follows the frame start), so the cache is left
      -- unset and the bytes from the frame start onward are dropped.
      (acc, [], none)

/-- `_decode` on a full buffer (length at least 8). -/
def decodeBuf (channels buf : List Nat) : List FrameEvent × List Nat × Option DecodeErr :=
  decodeLoop channels buf (buf.length + 1) 7 (frameStartAt buf 0) []

structure DemuxState where
  initDone : Bool
  cache : List Nat
  events : List FrameEvent
  error : Option DecodeErr

def demuxInit : DemuxState := ⟨false, [], [], none⟩

/-- One `_writevAsync` call on one chunk.  A thrown error destroys the
pipeline, so an errored stream ignores further chunks.  The `_init`
special case treats a very first 8-octet buffer as a protocol-mismatch
reply. -/
def writevStep (channels : List Nat) (st : DemuxState) (chunk : List Nat) : DemuxState :=
  if st.error.isSome then st
  else
    let buffer := st.cache ++ chunk
    if buffer.length < 8 then { st with cache := buffer }
    else if ¬st.initDone ∧ buffer.length = 8 then { st with error := some .protocolMismatch }
    else
      let (evs, cache, err) := decodeBuf channels buffer
      ⟨true, cache, st.events ++ evs, err⟩

/-- Feed a socket-chunk sequence through the demuxer. -/
def runDemux (channels : List Nat) (chunks : List (List Nat)) : DemuxState :=
  chunks.foldl (writevStep channels) demuxInit

/-! ## ConsumeStream content assembly (lib/consumer.ts lines 209-318)

State of the transformer: the in-flight `_current` message (delivery tag;
whether `properties` has been set; `body_size`; whether a body readable
was created), the `_wait_size` remaining-byte counter (a JavaScript
number, so `Int`), and — for the current delivery's body readable — the
bytes pushed into it and whether it has been closed.  `pushedCount`
counts messages emitted downstream with `pushAsync`. -/

inductive ConsumeChunk where
  | deliver (dt : Nat)
  | header (props : Nat) (body_size : Nat)
  | bodyC (bytes : List Nat)

structure CurMsg where
  dt : Nat
  hasProps : Bool
  body_size : Nat
  hasBody : Bool
deriving DecidableEq

structure CStream where
  current : Option CurMsg
  wait_size : Int
  pushedCount : Nat
  bodyOut : List Nat
  bodyClosed : Bool
deriving DecidableEq

/-- The errors `_writeAsync`/`flush_message` can throw.  All constructors
except `missedCurrent` are `HardError(basic_consume, 'unexpected_frame', …)`;
`missedCurrent` is the plain `Error` of `flush_message`. -/
inductive CErr where
  | ufDeliver
  | ufHeader
  | ufBody
  | ufExceeded
  | ufNoBody
  | missedCurrent
deriving DecidableEq

/-- Whether an error is one of the `unexpected_frame` hard errors. -/
def CErr.isUF : CErr → Bool
  | .missedCurrent => false
  | _ => true

def cstreamInit : CStream := ⟨none, 0, 0, [], false⟩

/-- `flush_message(needPush)`: close the body readable when one exists,
push the message downstream when asked, drop `_current`, reset
`_wait_size`. -/
def flushMessage (st : CStream) (needPush : Bool) : Except CErr CStream :=
  match st.current with
  | none => .error .missedCurrent
  | some cur =>
    let st1 := if cur.hasBody then { st with bodyClosed := true } else st
    let st2 := if needPush then { st1 with pushedCount := st1.pushedCount + 1 } else st1
    .ok { st2 with current := none, wait_size := 0 }

/-- `_writeAsync` on one chunk. -/
def consumeStep (st : CStream) (chunk : ConsumeChunk) : Except CErr CStream :=
  match chunk with
  | .deliver dt =>
    if st.current.isSome then .error .ufDeliver
    else .ok { st with current := some ⟨dt, false, 0, false⟩ }
  | .header _ size =>
    match st.current with
    | none => .error .ufHeader
    | some cur =>
      if cur.hasProps then .error .ufHeader
      else
        let cur' : CurMsg := { cur with hasProps := true }
        if size ≠ 0 then
          -- create the body readable, remember the size, push the message
          .ok { st with current := some { cur' with body_size := size, hasBody := true },
                        wait_size := (size : Int),
                        bodyOut := [], bodyClosed := false,
                        pushedCount := st.pushedCount + 1 }
        else flushMessage { st with current := some cur' } true
  | .bodyC bytes =>
    match st.current with
    | none => .error .ufBody
    | some cur =>
      if ¬cur.hasProps then .error .ufBody
      else if bytes.length = 0 then .ok st
      else
        let ws : Int := st.wait_size - bytes.length
        if ws < 0 then .error .ufExceeded
        else if ¬cur.hasBody then .error .ufNoBody
        else
          let st' := { st with bodyOut := st.bodyOut ++ bytes }
          if ws = 0 then flushMessage st' false
          else .ok { st' with wait_size := ws }

/-- Run the transformer over a chunk sequence. -/
def runConsume (chunks : List ConsumeChunk) : Except CErr CStream :=
  chunks.foldlM consumeStep cstreamInit

/-! ## ChannelAbstract request/response machinery
(lib/channel.ts lines 111-217)

`request_callbacks : Map<method_id, Map<UniqueId, Callback>>` is modelled
as an insertion-ordered association list of waiter ids per method id.  A
waiter's callback closure carries a `called` flag (invoked at most once), a
`clear` that removes the waiter from every response list it registered in,
and then resolves or rejects.  `handle_method` picks, among the waiters
registered for the reply id, `Array.from(callbacks.keys()).sort()[0]` when
there are several: the default sort stringifies every `UniqueId` to the
same `"[object Object]"`, the comparator therefore reports all elements
equal, and an ECMAScript 2019 sort is stable — so the array keeps map
insertion order and index 0 is the earliest-registered waiter.  That
stable identity sort is `jsObjectSortIds`. -/

inductive RejectErr where
  | forcedDefault
  | custom (e : Nat)
deriving DecidableEq

structure ChanState where
  destroyed : Bool
  reqs : List (Nat × List Nat)
  called : List Nat
  waiterResps : List (Nat × List Nat)
  resolved : List (Nat × Option RejectErr)
  handlers : List Nat
  handled : List Nat
  fatalCount : Nat
deriving DecidableEq

def chanInit : ChanState := ⟨false, [], [], [], [], [], [], 0⟩

/-- Lookup of `request_callbacks.get(mid)` (an absent key acts as an empty
list). -/
def cmGet (rs : List (Nat × List Nat)) (mid : Nat) : List Nat :=
  (((rs.find? (fun e => e.1 = mid)).map (fun e => e.2)).getD [])

/-- `callbacks.set(id, callback)` under `request_callbacks.get(mid)`,
creating the inner map when missing (new keys are appended, per `Map`
iteration order). -/
def cmAppend (rs : List (Nat × List Nat)) (mid w : Nat) : List (Nat × List Nat) :=
  if (rs.find? (fun e => e.1 = mid)).isSome then
    rs.map (fun e => if e.1 = mid then (e.1, e.2 ++ [w]) else e)
  else rs ++ [(mid, [w])]

/-- `callbacks.delete(id)` under method id `mid`. -/
def cmRemove (rs : List (Nat × List Nat)) (mid w : Nat) : List (Nat × List Nat) :=
  rs.map (fun e => if e.1 = mid then (e.1, e.2.filter (fun x => x ≠ w)) else e)

/-- The `clear` closure of a waiter: delete its id from every response
list it was registered under. -/
def clearWaiter (st : ChanState) (w : Nat) : ChanState :=
  let resps := ((st.waiterResps.find? (fun e => e.1 = w)).map (fun e => e.2)).getD []
  { st with reqs := resps.foldl (fun rs mid => cmRemove rs mid w) st.reqs }

/-- Invoke a waiter's callback with `none` (a reply) or `some e` (a
rejection): no-op when already called, else mark called, run `clear`, and
record the settlement. -/
def runCallback (st : ChanState) (w : Nat) (res : Option RejectErr) : ChanState :=
  if st.called.contains w then st
  else
    let st1 := clearWaiter { st with called := st.called ++ [w] } w
    { st1 with resolved := st1.resolved ++ [(w, res)] }

/-- The registration step of `call_api` (inside its `process.nextTick`):
a fresh waiter id is added to each expected reply id's callback map. -/
def registerWaiter (st : ChanState) (w : Nat) (resps : List Nat) : ChanState :=
  { st with reqs := resps.foldl (fun rs mid => cmAppend rs mid w) st.reqs,
            waiterResps := st.waiterResps ++ [(w, resps)] }

/-- `Array.from(callbacks.keys()).sort()` on `UniqueId` keys: every key
stringifies to `"[object Object]"`, the default comparator deems all
equal, and the (stable) sort returns the array in insertion order. -/
def jsObjectSortIds (l : List Nat) : List Nat := l

/-- The waiter chosen by `handle_method`: the single entry when
`callbacks.size === 1`, else the first key of the sorted key array. -/
def pickWaiter (callbacks : List Nat) : Option Nat :=
  if callbacks.length = 1 then callbacks.head?
  else (jsObjectSortIds callbacks).head?

/-- `handle_method(method_id, args)` (the body of its `process.nextTick`):
nothing on a destroyed channel; else resolve the picked waiter if any
waiter is registered for the id; else run the registered handler; else
escalate `fatal`. -/
def handleMethod (st : ChanState) (mid : Nat) : ChanState :=
  if st.destroyed then st
  else
    let callbacks := cmGet st.reqs mid
    if callbacks.length ≠ 0 then
      match pickWaiter callbacks with
      | some w => runCallback st w none
      | none => st
    else if st.handlers.contains mid then { st with handled := st.handled ++ [mid] }
    else { st with fatalCount := st.fatalCount + 1 }

/-- The rejection error used by `destroy`: the given error, or the default
`HardError(0, 'connection_forced', 'Channel or connection closed')`. -/
def rejectErrOf (err : Option Nat) : RejectErr :=
  match err with
  | some x => .custom x
  | none => .forcedDefault

/-- `ChannelChildAbstract.destroy(error)`: every callback in every response
map is invoked with the rejection error, then the channel is marked
destroyed.  The `called` guard in each callback (and live `Map` deletion
during iteration) makes repeated occurrences of one waiter settle only
once; the model folds over an occurrence snapshot, which yields the same
settlement log.  The `call_close` attempt guarded by
`!socket.destroyed && !destroyed` only sends frames and is outside this
state. -/
def destroyChan (st : ChanState) (err : Option Nat) : ChanState :=
  let e : RejectErr := rejectErrOf err
  let occs := (st.reqs.map (fun r => r.2)).flatten
  let st' := occs.foldl (fun s w => runCallback s w (some e)) st
  { st' with destroyed := true }

/-- Register the waiters `ws`, in order, all expecting the single reply id
`mid` (overlapping `call_api(x, …)` calls on one channel). -/
def registerAll (mid : Nat) (ws : List Nat) : ChanState :=
  ws.foldl (fun st w => registerWaiter st w [mid]) chanInit

/-- Handle `k` successive inbound frames of method `mid`. -/
def handleK (mid : Nat) (st : ChanState) : Nat → ChanState
  | 0 => st
  | k + 1 => handleK mid (handleMethod st mid) k

/-- A heartbeat frame on channel 0 (frame type 8, size 0). -/
def demoHeartbeatFrame : List Nat := [8, 0, 0, 0, 0, 0, 0, 206]

/-- A body frame on channel 1 with an 8-byte payload. -/
def demoBodyFrame : List Nat := [3, 0, 1, 0, 0, 0, 8, 11, 12, 13, 14, 15, 16, 17, 18, 206]

/-- A two-frame wire stream: heartbeat then body (24 bytes). -/
def demoStream : List Nat := demoHeartbeatFrame ++ demoBodyFrame

/-! # Theorems -/

/-! ## Shared helper lemmas -/

theorem length_be16 (n : Nat) : (be16 n).length = 2 := rfl

theorem rd32_be32 (n : Nat) :
    rd32 (n / 2 ^ 24 % 256) (n / 2 ^ 16 % 256) (n / 2 ^ 8 % 256) (n % 256) = n % 2 ^ 32 := by
  simp only [rd32]
  omega

/-- Claim C7 is FALSE on the code: `UniqueFactory.generate()` never updates
`last_id`, so two calls during the same wall-clock millisecond (here
`now = 5`, with the factory initialised at time 0) return identical ids
whose `compare` is 0, not negative.  This theorem evaluates the model at
that failing input. -/
theorem c7_generate_not_monotonic :
    ((factoryGenerate ⟨0, 0⟩ 5).1 = (factoryGenerate (factoryGenerate ⟨0, 0⟩ 5).2 5).1) ∧
    uidCompare (factoryGenerate ⟨0, 0⟩ 5).1 (factoryGenerate (factoryGenerate ⟨0, 0⟩ 5).2 5).1 = 0 ∧
    ¬ uidCompare (factoryGenerate ⟨0, 0⟩ 5).1 (factoryGenerate (factoryGenerate ⟨0, 0⟩ 5).2 5).1 < 0 := by
  decide

/-! ## Claim C9 (consumer-tag validation on basic.deliver) -/

/-- Claim C9: `ChannelConsume` destroys the channel with `no_consumers` on
an incoming `basic.deliver` if and only if a non-empty consumer tag was
recorded and the delivery's tag differs from it; with no recorded tag or
an empty recorded tag, the delivery is pushed (whatever its tag), under
normal operation (input readable not destroyed). -/
theorem c9_consumer_tag_check (ct : Option String) (inputDestroyed : Bool) (tag : String) :
    (basicDeliverHandler ct inputDestroyed tag = .destroyNoConsumers ↔
      ∃ t, ct = some t ∧ t ≠ "" ∧ tag ≠ t) ∧
    ((ct = none ∨ ct = some "") → inputDestroyed = false →
      basicDeliverHandler ct inputDestroyed tag = .pushed) := by
  constructor
  · constructor
    · intro h
      match ct with
      | none =>
        simp only [basicDeliverHandler] at h
        cases inputDestroyed <;> simp_all
      | some t =>
        refine ⟨t, rfl, ?_⟩
        simp only [basicDeliverHandler] at h
        by_cases hc : t ≠ "" ∧ tag ≠ t
        · exact hc
        · rw [if_neg hc] at h
          cases inputDestroyed <;> simp_all
    · rintro ⟨t, rfl, h1, h2⟩
      simp [basicDeliverHandler, h1, h2]
  · rintro (rfl | rfl) hd
    · simp [basicDeliverHandler, hd]
    · subst hd
      simp [basicDeliverHandler]

/-- Witness for C9: with no recorded tag and a live input, a delivery with
tag `"x"` is pushed. -/
theorem c9_consumer_tag_check_witness :
    basicDeliverHandler none false "x" = .pushed :=
  (c9_consumer_tag_check none false "x").2 (Or.inl rfl) rfl

/-! ## Claim C2 (channel_open returns an unused id) -/

/-- Claim C2 is FALSE on the code (code bug): starting from an empty
connection with `channel_max = 2047`, ten successful `channel_open` calls
allocate ids 1..10; the eleventh call string-sorts the keys as
`["1","10","2",…,"9"]`, takes `last_id = 9`, sees `9 > 10` fail, and picks
`id = 10` — an id currently in `channels` — overwriting the live channel
in the map.  This theorem evaluates the model at that reachable state. -/
theorem c2_reuses_live_id :
    openIter 2047 10 = [1, 2, 3, 4, 5, 6, 7, 8, 9, 10] ∧
    (openIter 2047 10).contains 10 = true ∧
    channelOpen (openIter 2047 10) 2047 = some (10, [1, 2, 3, 4, 5, 6, 7, 8, 9, 10]) := by
  decide

/-! ## Claim C3 (channel_open picks the lowest unused id) -/

/-- Counterexample to claim C3: with currently allocated ids `{1, 4, 5}`
(a non-full set with a gap, `channel_max = 2047`), `channel_open` picks 3
— the downward search stops at the highest free id below the maximum —
whereas the lowest unused id is 2. -/
theorem c3_not_lowest_unused :
    channelOpen [1, 4, 5] 2047 = some (3, [1, 4, 5, 3]) ∧
    lowestUnused [1, 4, 5] = 2 ∧
    (3 : Nat) ≠ 2 := by decide

/-- Claim C3 (amended): the id chosen by a successful `channel_open` is the
lowest unused id only in restricted situations; in particular, when the
allocated ids form the gapless range `{1,…,n}` with `n ≤ 9` (so that
string sorting agrees with numeric sorting) and the map is not full, the
chosen id is `n + 1`, which is the lowest unused id.  For gapped sets the
code instead returns the highest free id below the string-sorted maximum
(see the counterexample), and ids of two or more digits sort
lexicographically. -/
theorem c3_lowest_unused_gapless (n cmax : Nat) (h9 : n ≤ 9) (hne : n ≠ cmax) :
    channelOpen (List.range' 1 n) cmax = some (n + 1, List.range' 1 (n + 1)) ∧
    n + 1 = lowestUnused (List.range' 1 n) := by
  have key : ∀ m : Nat, m ≤ 9 →
      allocId (List.range' 1 m) = m + 1 ∧
      mapSet (List.range' 1 m) (m + 1) = List.range' 1 (m + 1) ∧
      lowestUnused (List.range' 1 m) = m + 1 := by decide
  obtain ⟨h1, h2, h3⟩ := key n h9
  refine ⟨?_, h3.symm⟩
  unfold channelOpen
  rw [if_neg (by simpa using hne)]
  simp only [h1, h2]

/-- Witness for C3 (amended): nine allocated channels `{1,…,9}` with
`channel_max = 2047` yield id 10, the lowest unused. -/
theorem c3_lowest_unused_gapless_witness :
    channelOpen (List.range' 1 9) 2047 = some (10, List.range' 1 10) ∧
    10 = lowestUnused (List.range' 1 9) :=
  c3_lowest_unused_gapless 9 2047 (by decide) (by decide)

/-! ## Claim C1 (frame demuxer chunking invariance) -/

/-- Claim C1 is FALSE on the code (code bug): the same 24-byte wire stream
(a heartbeat frame followed by a 16-byte body frame on channel 1)
dispatches both frames when it arrives in one chunk, but dispatches only
the heartbeat when split after byte 18: `_decode` exits its loop with the
body frame incomplete at reader offset 15, the post-loop guard
`buffer.length === reader.offset` (18 = 15) is false, so the ten
buffered bytes of the body frame are dropped rather than cached — the
final cache holds only the second chunk's six bytes, and the body frame
is never dispatched.  This theorem evaluates the model on both
arrivals. -/
theorem c1_chunking_drops_partial_frame :
    (runDemux [1] [demoStream]).events =
      [.heartbeatEv 0, .bodyEv 1 [11, 12, 13, 14, 15, 16, 17, 18]] ∧
    (runDemux [1] [demoStream]).error = none ∧
    (runDemux [1] [demoStream]).cache = [] ∧
    (runDemux [1] [demoStream.take 18, demoStream.drop 18]).events = [.heartbeatEv 0] ∧
    (runDemux [1] [demoStream.take 18, demoStream.drop 18]).error = none ∧
    (runDemux [1] [demoStream.take 18, demoStream.drop 18]).cache = demoStream.drop 18 := by
  decide

theorem setBytes_at_boundary (B : List Nat) : ∀ (A C : List Nat), B.length ≤ C.length →
    setBytes (A ++ C) A.length B = A ++ B ++ C.drop B.length := by
  induction B with
  | nil => intro A C _; simp [setBytes]
  | cons b rest ih =>
    intro A C h
    match C with
    | [] => simp at h
    | c :: C' =>
      show setBytes ((A ++ c :: C').set A.length b) (A.length + 1) rest = _
      have hset : (A ++ c :: C').set A.length b = (A ++ [b]) ++ C' := by
        simp [List.set_append]
      rw [hset]
      have hlen : A.length + 1 = (A ++ [b]).length := by simp
      rw [hlen, ih (A ++ [b]) C' (by simpa using h)]
      simp

theorem writeVoidFrame_eq (mid ch : Nat) :
    writeVoidFrame mid ch = [1] ++ be16 ch ++ be32 4 ++ be32 mid ++ [206] := by rfl

theorem writeBodyOneFrame_eq (ch : Nat) (body : List Nat) :
    writeBodyOneFrame ch body = [3] ++ be16 ch ++ be32 body.length ++ body ++ [206] := by
  set H : List Nat := [3] ++ be16 ch ++ be32 body.length with hHdef
  have hH : H.length = 7 := by simp [hHdef, be16, be32]
  show setBytes (setBytes (setBytes (List.replicate (8 + body.length) 0) 0 H) 7 body)
      (7 + body.length) [206] = H ++ body ++ [206]
  have h1 : setBytes (List.replicate (8 + body.length) 0) 0 H =
      H ++ List.replicate (1 + body.length) 0 := by
    have h := setBytes_at_boundary H [] (List.replicate (8 + body.length) 0)
      (by simp [hH]; omega)
    simp only [List.nil_append, List.length_nil] at h
    rw [h, List.drop_replicate, hH]
    congr 2
    omega
  rw [h1]
  have h2 : setBytes (H ++ List.replicate (1 + body.length) 0) 7 body =
      H ++ body ++ List.replicate 1 0 := by
    have h := setBytes_at_boundary body H (List.replicate (1 + body.length) 0)
      (by simp)
    rw [hH] at h
    rw [h, List.drop_replicate]
    congr 2
    omega
  rw [h2]
  have h3 : setBytes ((H ++ body) ++ List.replicate 1 0) (7 + body.length) [206] =
      (H ++ body) ++ [206] := by
    have h := setBytes_at_boundary [206] (H ++ body) (List.replicate 1 0) (by simp)
    simp only [List.length_append, hH] at h
    simpa using h
  exact h3




theorem wDynPut_exists (A : List Nat) (R : Nat) (bs : List Nat) :
    ∃ r', wDynPut ⟨A ++ List.replicate R 0, A.length⟩ bs =
      ⟨A ++ bs ++ List.replicate r' 0, A.length + bs.length⟩ := by
  simp only [wDynPut]
  split
  · next hg =>
      refine ⟨R - bs.length, ?_⟩
      have hble : bs.length ≤ R := by
        simp only [List.length_append, List.length_replicate] at hg; omega
      have hc : bs.length ≤ (List.replicate R (0:Nat)).length := by
        simpa using hble
      have hrw := setBytes_at_boundary bs A (List.replicate R 0) hc
      rw [hrw]
      rw [List.drop_replicate]
  · next hg =>
      have hR : bs.length > R := by
        simp only [List.length_append, List.length_replicate] at hg; omega
      have hK : R + (A.length + bs.length - (A ++ List.replicate R 0).length + 1024) =
          bs.length + 1024 := by
        simp only [List.length_append, List.length_replicate]
        omega
      have hcat : (A ++ List.replicate R 0) ++
          List.replicate (A.length + bs.length - (A ++ List.replicate R 0).length + 1024) 0 =
          A ++ List.replicate (bs.length + 1024) 0 := by
        rw [List.append_assoc, ← List.replicate_add, hK]
      rw [hcat]
      refine ⟨1024, ?_⟩
      rw [setBytes_at_boundary bs A (List.replicate (bs.length + 1024) 0) (by simp),
        List.drop_replicate]
      congr 3
      omega

theorem dynMethodFrame_eq (initial ch mid : Nat) (args : List Nat) (hinit : 11 ≤ initial) :
    dynMethodFrame initial ch mid args =
      [1] ++ be16 ch ++ be32 (4 + args.length) ++ be32 mid ++ args ++ [206] := by
  have h7len : ([1] ++ be16 ch ++ be32 0).length = 7 := by simp [be16, be32]
  have h11len : ([1] ++ be16 ch ++ be32 0 ++ be32 mid).length = 11 := by simp [be16, be32]
  -- the 11-octet method header written into the fresh buffer
  have h0 : wMethodstart (wAlloc initial) ch 0 mid =
      ⟨([1] ++ be16 ch ++ be32 0 ++ be32 mid) ++ List.replicate (initial - 11) 0, 11⟩ := by
    have ha : setBytes (List.replicate initial 0) 0 ([1] ++ be16 ch ++ be32 0) =
        ([1] ++ be16 ch ++ be32 0) ++ List.replicate (initial - 7) 0 := by
      have h := setBytes_at_boundary ([1] ++ be16 ch ++ be32 0) [] (List.replicate initial 0)
        (by rw [h7len]; simp; omega)
      simp only [List.nil_append, List.length_nil] at h
      rw [h, List.drop_replicate, h7len]
    have hb := setBytes_at_boundary (be32 mid) ([1] ++ be16 ch ++ be32 0)
      (List.replicate (initial - 7) 0) (by simp [be32]; omega)
    rw [h7len] at hb
    show (⟨setBytes (setBytes (List.replicate initial 0) 0 ([1] ++ be16 ch ++ be32 0)) 7
        (be32 mid), 11⟩ : WriterM) = _
    rw [ha, hb, List.drop_replicate]
    have : initial - 7 - (be32 mid).length = initial - 11 := by simp [be32]; omega
    rw [this, List.append_assoc]
  obtain ⟨r1, h1⟩ := wDynPut_exists ([1] ++ be16 ch ++ be32 0 ++ be32 mid) (initial - 11) args
  rw [h11len] at h1
  obtain ⟨r2, h2⟩ := wDynPut_exists (([1] ++ be16 ch ++ be32 0 ++ be32 mid) ++ args) r1 [206]
  have hoff : (([1] ++ be16 ch ++ be32 0 ++ be32 mid) ++ args).length = 11 + args.length := by
    rw [List.length_append, h11len]
  rw [hoff] at h2
  simp only [List.append_assoc] at h1 h2
  show (let w3 := wSetframelength (wDynPut (wDynPut (wMethodstart (wAlloc initial) ch 0 mid)
      args) [206]); w3.buf.take w3.off) = _
  rw [h0]
  simp only [List.append_assoc]
  rw [h1, h2]
  show (setBytes ([1] ++ (be16 ch ++ (be32 0 ++ (be32 mid ++ (args ++ ([206] ++
      List.replicate r2 0)))))) 3 (be32 (11 + args.length + 1 - 8))).take
      (11 + args.length + 1) = _
  have harith : 11 + args.length + 1 - 8 = 4 + args.length := by omega
  rw [harith]
  have h3 := setBytes_at_boundary (be32 (4 + args.length)) ([1] ++ be16 ch)
    (be32 0 ++ (be32 mid ++ (args ++ ([206] ++ List.replicate r2 0))))
    (by simp [be16, be32])
  have hl3 : ([1] ++ be16 ch).length = 3 := by simp [be16]
  rw [hl3] at h3
  simp only [List.append_assoc] at h3
  rw [h3]
  have hd4 : (be32 0).length = (be32 (4 + args.length)).length := rfl
  rw [List.drop_left' hd4]
  have hsplit : [1] ++ (be16 ch ++ (be32 (4 + args.length) ++ (be32 mid ++ (args ++
      ([206] ++ List.replicate r2 0))))) =
      ([1] ++ be16 ch ++ be32 (4 + args.length) ++ be32 mid ++ args ++ [206]) ++
        List.replicate r2 0 := by
    simp [List.append_assoc]
  rw [hsplit]
  have htk : ([1] ++ be16 ch ++ be32 (4 + args.length) ++ be32 mid ++ args ++
      [206]).length = 11 + args.length + 1 := by simp [be16, be32]; omega
  rw [List.take_left' htk]
  simp [List.append_assoc]

theorem envelopeProps (ft ch p : Nat) (payload : List Nat) (hlen : payload.length = p)
    (hp : p < 2 ^ 32) :
    ([ft] ++ be16 ch ++ be32 p ++ payload ++ [206]).length = 8 + p ∧
    ([ft] ++ be16 ch ++ be32 p ++ payload ++ [206]).getLast? = some 206 ∧
    sizeField ([ft] ++ be16 ch ++ be32 p ++ payload ++ [206]) = p := by
  refine ⟨?_, ?_, ?_⟩
  · simp [be16, be32, hlen]
    omega
  · have hsp : [ft] ++ be16 ch ++ be32 p ++ payload ++ [206] =
        ([ft] ++ be16 ch ++ be32 p ++ payload) ++ [206] := by simp [List.append_assoc]
    rw [hsp, List.getLast?_concat]
  · have hsf : sizeField ([ft] ++ be16 ch ++ be32 p ++ payload ++ [206]) =
        rd32 (p / 2 ^ 24 % 256) (p / 2 ^ 16 % 256) (p / 2 ^ 8 % 256) (p % 256) := rfl
    rw [hsf, rd32_be32, Nat.mod_eq_of_lt hp]

/-- Counterexample to claim C8: the heartbeat frame emitted by
`BufferWriter.heartbeat` has payload_size 0 and is exactly 8 bytes long,
not `8 + payload_size + 1 = 9` bytes as the claim states (the 8 octets
already include the trailing `0xCE`). -/
theorem c8_heartbeat_length :
    heartbeatFrame.length = 8 ∧ sizeField heartbeatFrame = 0 ∧
    heartbeatFrame.getLast? = some 206 ∧
    heartbeatFrame.length ≠ 8 + sizeField heartbeatFrame + 1 := by decide

/-- Claim C8 (amended): every frame emitted by the writer helpers
(`writeVoid`, `writeBodyOne`, `heartbeat`, and dynamically-sized frames
finished with `frameend` and `setframelength`) is exactly
`7 + payload_size + 1 = 8 + payload_size` bytes long (the claim's
`8 + payload_size + 1` double-counts the frame-end octet), its last byte
is `0xCE`, and the 4-byte `payload_size` field at offset 3 equals the
actual payload length. -/
theorem c8_frame_envelope :
    (∀ mid ch : Nat,
      writeVoidFrame mid ch = [1] ++ be16 ch ++ be32 4 ++ be32 mid ++ [206] ∧
      (writeVoidFrame mid ch).length = 8 + 4 ∧
      (writeVoidFrame mid ch).getLast? = some 206 ∧
      sizeField (writeVoidFrame mid ch) = 4) ∧
    (∀ (ch : Nat) (body : List Nat), body.length < 2 ^ 32 →
      writeBodyOneFrame ch body = [3] ++ be16 ch ++ be32 body.length ++ body ++ [206] ∧
      (writeBodyOneFrame ch body).length = 8 + body.length ∧
      (writeBodyOneFrame ch body).getLast? = some 206 ∧
      sizeField (writeBodyOneFrame ch body) = body.length) ∧
    (heartbeatFrame.length = 8 + 0 ∧ heartbeatFrame.getLast? = some 206 ∧
      sizeField heartbeatFrame = 0) ∧
    (∀ (initial ch mid : Nat) (args : List Nat), 11 ≤ initial → 4 + args.length < 2 ^ 32 →
      dynMethodFrame initial ch mid args =
        [1] ++ be16 ch ++ be32 (4 + args.length) ++ be32 mid ++ args ++ [206] ∧
      (dynMethodFrame initial ch mid args).length = 8 + (4 + args.length) ∧
      (dynMethodFrame initial ch mid args).getLast? = some 206 ∧
      sizeField (dynMethodFrame initial ch mid args) = 4 + args.length) := by
  refine ⟨?_, ?_, by decide, ?_⟩
  · intro mid ch
    have he := envelopeProps 1 ch 4 (be32 mid) rfl (by norm_num)
    rw [writeVoidFrame_eq mid ch]
    exact ⟨rfl, he.1, he.2.1, he.2.2⟩
  · intro ch body hb
    have he := envelopeProps 3 ch body.length body rfl hb
    rw [writeBodyOneFrame_eq ch body]
    exact ⟨rfl, he.1, he.2.1, he.2.2⟩
  · intro initial ch mid args hinit hlt
    have he := envelopeProps 1 ch (4 + args.length) (be32 mid ++ args)
      (by simp [be32]; omega) hlt
    have hre : [1] ++ be16 ch ++ be32 (4 + args.length) ++ (be32 mid ++ args) ++ [206] =
        [1] ++ be16 ch ++ be32 (4 + args.length) ++ be32 mid ++ args ++ [206] := by
      simp [List.append_assoc]
    rw [hre] at he
    rw [dynMethodFrame_eq initial ch mid args hinit]
    exact ⟨rfl, he.1, he.2.1, he.2.2⟩

/-- Witness for C8 (amended): concrete body and dynamic frames. -/
theorem c8_frame_envelope_witness :
    ((writeBodyOneFrame 2 [9, 8, 7]).length = 8 + 3 ∧
      sizeField (writeBodyOneFrame 2 [9, 8, 7]) = 3) ∧
    ((dynMethodFrame 30 2 655370 [5, 6]).getLast? = some 206 ∧
      sizeField (dynMethodFrame 30 2 655370 [5, 6]) = 4 + 2) :=
  ⟨⟨(c8_frame_envelope.2.1 2 [9, 8, 7] (by norm_num)).2.1,
    (c8_frame_envelope.2.1 2 [9, 8, 7] (by norm_num)).2.2.2⟩,
   ⟨(c8_frame_envelope.2.2.2 30 2 655370 [5, 6] (by norm_num) (by norm_num)).2.2.1,
    (c8_frame_envelope.2.2.2 30 2 655370 [5, 6] (by norm_num) (by norm_num)).2.2.2⟩⟩

/-! ## Claim C5 (content assembly) -/

theorem getLast?_cons_of_ne {α : Type} (a : α) (l : List α) (h : l ≠ []) :
    (a :: l).getLast? = l.getLast? := by
  match l with
  | [] => exact absurd rfl h
  | b :: l2 => rfl

theorem getLast?_all_nil (l : List (List Nat)) (h : (l.map List.length).sum = 0)
    (hne : l ≠ []) : l.getLast? = some [] := by
  induction l with
  | nil => exact absurd rfl hne
  | cons a l ih =>
    rcases l with _ | ⟨b, l2⟩
    · have ha : a = [] := List.eq_nil_of_length_eq_zero (by simpa using h)
      subst ha
      rfl
    · rw [getLast?_cons_of_ne a (b :: l2) (by simp)]
      refine ih ?_ (by simp)
      simp only [List.map_cons, List.sum_cons] at h ⊢
      omega

theorem foldlM_consumeStep_cons (st : CStream) (c : ConsumeChunk) (l : List ConsumeChunk) :
    List.foldlM consumeStep st (c :: l) =
      consumeStep st c >>= fun st2 => List.foldlM consumeStep st2 l := rfl

theorem consumeBody_success (dt N : Nat) :
    ∀ (bs : List (List Nat)) (w : Nat) (acc : List Nat), 0 < w →
      (bs.map List.length).sum = w → bs.getLast? ≠ some [] →
      List.foldlM consumeStep
        (⟨some ⟨dt, true, N, true⟩, (w : Int), 1, acc, false⟩ : CStream) (bs.map .bodyC) =
      .ok ⟨none, 0, 1, acc ++ bs.flatten, true⟩ := by
  intro bs
  induction bs with
  | nil =>
    intro w acc hw hsum _
    simp at hsum
    omega
  | cons c rest ih =>
    intro w acc hw hsum hlast
    simp only [List.map_cons, foldlM_consumeStep_cons]
    by_cases hc : c.length = 0
    · have hcnil : c = [] := List.eq_nil_of_length_eq_zero hc
      subst hcnil
      have hrest : rest ≠ [] := by
        intro h
        subst h
        simp at hsum
        omega
      have hstep : consumeStep (⟨some ⟨dt, true, N, true⟩, (w : Int), 1, acc, false⟩ : CStream)
          (.bodyC []) = .ok ⟨some ⟨dt, true, N, true⟩, (w : Int), 1, acc, false⟩ := rfl
      rw [hstep]
      have hsum2 : (rest.map List.length).sum = w := by simpa using hsum
      have hlast2 : rest.getLast? ≠ some [] := by
        rwa [getLast?_cons_of_ne [] rest hrest] at hlast
      simpa using ih w acc hw hsum2 hlast2
    · by_cases hlt : c.length < w
      · have h1 : ¬ ((w : Int) - c.length < 0) := by omega
        have h2 : ¬ ((w : Int) - c.length = 0) := by omega
        have hstep : consumeStep (⟨some ⟨dt, true, N, true⟩, (w : Int), 1, acc, false⟩ : CStream)
            (.bodyC c) =
            .ok ⟨some ⟨dt, true, N, true⟩, (w : Int) - c.length, 1, acc ++ c, false⟩ := by
          simp [consumeStep, hc, h1, h2]
        rw [hstep]
        have hcast : (w : Int) - c.length = ((w - c.length : Nat) : Int) := by omega
        rw [hcast]
        have hrest : rest ≠ [] := by
          intro h
          subst h
          simp at hsum
          omega
        have hsum2 : (rest.map List.length).sum = w - c.length := by
          simp at hsum
          omega
        have hlast2 : rest.getLast? ≠ some [] := by
          rwa [getLast?_cons_of_ne c rest hrest] at hlast
        have hrec := ih (w - c.length) (acc ++ c) (by omega) hsum2 hlast2
        simpa [List.append_assoc] using hrec
      · have hle : c.length ≤ w := by
          have hx : (List.map List.length (c :: rest)).sum =
              c.length + (List.map List.length rest).sum := by simp
          omega
        have heq : c.length = w := by omega
        have h1 : ¬ ((w : Int) - c.length < 0) := by omega
        have h2 : (w : Int) - c.length = 0 := by omega
        have hstep : consumeStep (⟨some ⟨dt, true, N, true⟩, (w : Int), 1, acc, false⟩ : CStream)
            (.bodyC c) = .ok ⟨none, 0, 1, acc ++ c, true⟩ := by
          simp [consumeStep, hc, h1, h2, flushMessage]
        rw [hstep]
        have hrest : rest = [] := by
          rcases hr : rest with _ | ⟨r, rest2⟩
          · rfl
          · exfalso
            subst hr
            have hz : ((r :: rest2).map List.length).sum = 0 := by
              simp only [List.map_cons, List.sum_cons] at hsum ⊢
              omega
            have := getLast?_all_nil (r :: rest2) hz (by simp)
            rw [getLast?_cons_of_ne c (r :: rest2) (by simp)] at hlast
            exact hlast this
        subst hrest
        simp

theorem consume_after_flush (z : Int) (pc : Nat) (bo : List Nat) (bc : Bool)
    (c : List Nat) (rest : List ConsumeChunk) :
    List.foldlM consumeStep (⟨none, z, pc, bo, bc⟩ : CStream) (.bodyC c :: rest) =
      .error .ufBody := rfl

theorem consumeBody_overshoot (dt N : Nat) :
    ∀ (bs : List (List Nat)) (w : Nat) (acc : List Nat), 0 < w →
      w < (bs.map List.length).sum →
      ∃ e : CErr, e.isUF = true ∧
        List.foldlM consumeStep
          (⟨some ⟨dt, true, N, true⟩, (w : Int), 1, acc, false⟩ : CStream)
          (bs.map .bodyC) = .error e := by
  intro bs
  induction bs with
  | nil =>
    intro w acc hw hsum
    simp at hsum
  | cons c rest ih =>
    intro w acc hw hsum
    simp only [List.map_cons, foldlM_consumeStep_cons]
    by_cases hc : c.length = 0
    · have hcnil : c = [] := List.eq_nil_of_length_eq_zero hc
      subst hcnil
      have hstep : consumeStep (⟨some ⟨dt, true, N, true⟩, (w : Int), 1, acc, false⟩ : CStream)
          (.bodyC []) = .ok ⟨some ⟨dt, true, N, true⟩, (w : Int), 1, acc, false⟩ := rfl
      rw [hstep]
      have hsum2 : w < (rest.map List.length).sum := by simpa using hsum
      simpa using ih w acc hw hsum2
    · by_cases hover : w < c.length
      · refine ⟨.ufExceeded, rfl, ?_⟩
        have h1 : (w : Int) - c.length < 0 := by omega
        have hstep : consumeStep (⟨some ⟨dt, true, N, true⟩, (w : Int), 1, acc, false⟩ : CStream)
            (.bodyC c) = .error .ufExceeded := by
          simp [consumeStep, hc, h1]
        rw [hstep]
        rfl
      · by_cases heq : c.length = w
        · have h1 : ¬ ((w : Int) - c.length < 0) := by omega
          have h2 : (w : Int) - c.length = 0 := by omega
          have hstep : consumeStep (⟨some ⟨dt, true, N, true⟩, (w : Int), 1, acc, false⟩ : CStream)
              (.bodyC c) = .ok ⟨none, 0, 1, acc ++ c, true⟩ := by
            simp [consumeStep, hc, h1, h2, flushMessage]
          rw [hstep]
          have hrest : 0 < (rest.map List.length).sum := by
            simp only [List.map_cons, List.sum_cons] at hsum
            omega
          rcases hr : rest with _ | ⟨r, rest2⟩
          · subst hr
            simp at hrest
          · subst hr
            refine ⟨.ufBody, rfl, ?_⟩
            simp only [List.map_cons]
            rw [show ((Except.ok (⟨none, 0, 1, acc ++ c, true⟩ : CStream) : Except CErr CStream) >>=
                fun st2 => List.foldlM consumeStep st2 (.bodyC r :: rest2.map .bodyC)) =
                List.foldlM consumeStep (⟨none, 0, 1, acc ++ c, true⟩ : CStream)
                  (.bodyC r :: rest2.map .bodyC) from rfl]
            exact consume_after_flush 0 1 (acc ++ c) true r (rest2.map .bodyC)
        · have hlt : c.length < w := by omega
          have h1 : ¬ ((w : Int) - c.length < 0) := by omega
          have h2 : ¬ ((w : Int) - c.length = 0) := by omega
          have hstep : consumeStep (⟨some ⟨dt, true, N, true⟩, (w : Int), 1, acc, false⟩ : CStream)
              (.bodyC c) =
              .ok ⟨some ⟨dt, true, N, true⟩, (w : Int) - c.length, 1, acc ++ c, false⟩ := by
            simp [consumeStep, hc, h1, h2]
          rw [hstep]
          have hcast : (w : Int) - c.length = ((w - c.length : Nat) : Int) := by omega
          rw [hcast]
          have hsum2 : w - c.length < (rest.map List.length).sum := by
            simp only [List.map_cons, List.sum_cons] at hsum
            omega
          have hrec := ih (w - c.length) (acc ++ c) (by omega) hsum2
          simpa using hrec

theorem consumeStep_wait_nonneg (st : CStream) (c : ConsumeChunk) (st2 : CStream)
    (h0 : 0 ≤ st.wait_size) (h : consumeStep st c = .ok st2) : 0 ≤ st2.wait_size := by
  cases c with
  | deliver dt =>
    simp only [consumeStep] at h
    split at h
    · exact absurd h (by simp)
    · replace h := Except.ok.inj h
      subst h
      simpa using h0
  | header p size =>
    rcases hcur : st.current with _ | cur
    · simp only [consumeStep, hcur] at h
      exact absurd h (by simp)
    · simp only [consumeStep, hcur] at h
      by_cases hp : cur.hasProps
      · rw [if_pos hp] at h
        exact absurd h (by simp)
      · rw [if_neg hp] at h
        by_cases hsz : size ≠ 0
        · rw [if_pos hsz] at h
          replace h := Except.ok.inj h
          subst h
          simp
        · rw [if_neg hsz] at h
          simp only [flushMessage] at h
          replace h := Except.ok.inj h
          subst h
          simp
  | bodyC bytes =>
    rcases hcur : st.current with _ | cur
    · simp only [consumeStep, hcur] at h
      exact absurd h (by simp)
    · simp only [consumeStep, hcur] at h
      by_cases hp : cur.hasProps
      · rw [if_neg (by simpa using hp)] at h
        by_cases hz : bytes.length = 0
        · rw [if_pos hz] at h
          replace h := Except.ok.inj h
          subst h
          simpa using h0
        · rw [if_neg hz] at h
          by_cases hneg : st.wait_size - bytes.length < 0
          · rw [if_pos hneg] at h
            exact absurd h (by simp)
          · rw [if_neg hneg] at h
            by_cases hb : cur.hasBody
            · rw [if_neg (by simpa using hb)] at h
              by_cases hzero : st.wait_size - bytes.length = 0
              · rw [if_pos hzero] at h
                simp only [flushMessage, hcur] at h
                replace h := Except.ok.inj h
                subst h
                simp
              · rw [if_neg hzero] at h
                replace h := Except.ok.inj h
                subst h
                simp
                omega
            · rw [if_pos (by simpa using hb)] at h
              exact absurd h (by simp)
      · rw [if_pos (by simpa using hp)] at h
        exact absurd h (by simp)

theorem runConsume_start (dt p N : Nat) (hN : N ≠ 0) (l : List ConsumeChunk) :
    runConsume (.deliver dt :: .header p N :: l) =
      List.foldlM consumeStep
        (⟨some ⟨dt, true, N, true⟩, (N : Int), 1, [], false⟩ : CStream) l := by
  have h1 : consumeStep cstreamInit (.deliver dt) =
      .ok ⟨some ⟨dt, false, 0, false⟩, 0, 0, [], false⟩ := rfl
  have h2 : consumeStep (⟨some ⟨dt, false, 0, false⟩, 0, 0, [], false⟩ : CStream)
      (.header p N) = .ok ⟨some ⟨dt, true, N, true⟩, (N : Int), 1, [], false⟩ := by
    simp [consumeStep, hN]
  show List.foldlM consumeStep cstreamInit (.deliver dt :: .header p N :: l) = _
  rw [foldlM_consumeStep_cons, h1]
  show List.foldlM consumeStep (⟨some ⟨dt, false, 0, false⟩, 0, 0, [], false⟩ : CStream)
      (.header p N :: l) = _
  rw [foldlM_consumeStep_cons, h2]
  rfl

/-- Counterexample to claim C5: for `body_size = 1` the partition
`[[42], []]` of the body sums to 1, yet an empty body frame after the
frame that completed the body throws `unexpected_frame` (`Unexpected
body`): `flush_message` has already dropped `_current`, so the trailing
empty frame hits the `current === undefined` check — processing fails
although no frame made the running sum exceed `N`.  Without the trailing
empty frame the same bytes are delivered and the readable closed. -/
theorem c5_trailing_empty_frame :
    (([[42], []].map List.length).sum = 1) ∧
    runConsume [.deliver 7, .header 0 1, .bodyC [42], .bodyC []] = .error .ufBody ∧
    CErr.isUF .ufBody = true ∧
    runConsume [.deliver 7, .header 0 1, .bodyC [42]] = .ok ⟨none, 0, 1, [42], true⟩ :=
  ⟨by decide, by rfl, by rfl, by rfl⟩

/-- Claim C5 (amended): for every delivered message with declared
`body_size = N > 0` and every partition of its body into frames summing to
`N` in which no (necessarily empty) frame follows the frame that completes
the body, the transformer pushes the message exactly once, the readable
receives exactly the original bytes in order (empty frames elsewhere being
ignored), and it is closed when the running sum reaches `N`.  If the
frames sum to more than `N` — equivalently, some frame makes the running
sum exceed `N`, or arrives after completion — processing fails with an
`unexpected_frame` hard error (which the surrounding pipeline turns into
channel/connection destruction).  The remaining-byte counter never goes
negative across any successful step. -/
theorem c5_content_assembly :
    (∀ (dt p N : Nat) (bs : List (List Nat)), 0 < N → (bs.map List.length).sum = N →
      bs.getLast? ≠ some [] →
      runConsume ([.deliver dt, .header p N] ++ bs.map .bodyC) =
        .ok ⟨none, 0, 1, bs.flatten, true⟩) ∧
    (∀ (dt p N : Nat) (bs : List (List Nat)), 0 < N → N < (bs.map List.length).sum →
      ∃ e : CErr, e.isUF = true ∧
        runConsume ([.deliver dt, .header p N] ++ bs.map .bodyC) = .error e) ∧
    (∀ (st : CStream) (c : ConsumeChunk) (st2 : CStream), 0 ≤ st.wait_size →
      consumeStep st c = .ok st2 → 0 ≤ st2.wait_size) := by
  refine ⟨?_, ?_, consumeStep_wait_nonneg⟩
  · intro dt p N bs hN hsum hlast
    rw [show ([.deliver dt, .header p N] ++ bs.map .bodyC : List ConsumeChunk) =
      .deliver dt :: .header p N :: bs.map .bodyC from rfl]
    rw [runConsume_start dt p N (by omega) (bs.map .bodyC)]
    simpa using consumeBody_success dt N bs N [] hN hsum hlast
  · intro dt p N bs hN hsum
    rw [show ([.deliver dt, .header p N] ++ bs.map .bodyC : List ConsumeChunk) =
      .deliver dt :: .header p N :: bs.map .bodyC from rfl]
    rw [runConsume_start dt p N (by omega) (bs.map .bodyC)]
    exact consumeBody_overshoot dt N bs N [] hN hsum

/-- Witness for C5 (amended): a 3-byte body split `[1] / [] / [2,3]`
delivers `[1,2,3]` and closes; the partition `[1] / [2,3,4]` overshoots
`N = 3` and fails with an `unexpected_frame` error; a successful step from
a state with a non-negative counter keeps it non-negative. -/
theorem c5_content_assembly_witness :
    runConsume [.deliver 7, .header 0 3, .bodyC [1], .bodyC [], .bodyC [2, 3]] =
      .ok ⟨none, 0, 1, [1, 2, 3], true⟩ ∧
    (∃ e : CErr, e.isUF = true ∧
      runConsume [.deliver 7, .header 0 3, .bodyC [1], .bodyC [2, 3, 4]] = .error e) ∧
    (0 : Int) ≤ (0 : Int) := by
  refine ⟨?_, ?_, le_refl 0⟩
  · simpa using c5_content_assembly.1 7 0 3 [[1], [], [2, 3]] (by decide) (by decide) (by decide)
  · simpa using c5_content_assembly.2.1 7 0 3 [[1], [2, 3, 4]] (by decide) (by decide)

/-! ## Claim C6 (FIFO waiters) -/

theorem pickWaiter_eq_head (l : List Nat) : pickWaiter l = l.head? := by
  unfold pickWaiter jsObjectSortIds
  exact ite_self _

theorem registerAll_spec (mid : Nat) : ∀ (ws acc : List Nat) (wr : List (Nat × List Nat)),
    ws.foldl (fun st w => registerWaiter st w [mid])
      (⟨false, [(mid, acc)], [], wr, [], [], [], 0⟩ : ChanState) =
    ⟨false, [(mid, acc ++ ws)], [], wr ++ ws.map (fun w => (w, [mid])), [], [], [], 0⟩ := by
  intro ws
  induction ws with
  | nil => intro acc wr; simp
  | cons w ws ih =>
    intro acc wr
    have hstep : registerWaiter (⟨false, [(mid, acc)], [], wr, [], [], [], 0⟩ : ChanState) w [mid] =
        ⟨false, [(mid, acc ++ [w])], [], wr ++ [(w, [mid])], [], [], [], 0⟩ := by
      simp [registerWaiter, cmAppend]
    show List.foldl _ (registerWaiter (⟨false, [(mid, acc)], [], wr, [], [], [], 0⟩ : ChanState)
        w [mid]) ws = _
    rw [hstep, ih (acc ++ [w]) (wr ++ [(w, [mid])])]
    simp

theorem registerAll_cons_eq (mid w : Nat) (ws : List Nat) :
    registerAll mid (w :: ws) =
      ⟨false, [(mid, w :: ws)], [], (w :: ws).map (fun x => (x, [mid])), [], [], [], 0⟩ := by
  have h0 : registerWaiter chanInit w [mid] =
      ⟨false, [(mid, [w])], [], [(w, [mid])], [], [], [], 0⟩ := by
    simp [registerWaiter, chanInit, cmAppend]
  show List.foldl _ (registerWaiter chanInit w [mid]) ws = _
  rw [h0]
  have h := registerAll_spec mid ws [w] [(w, [mid])]
  simpa using h

theorem find?_map_pair (mid v : Nat) : ∀ l : List Nat, v ∈ l →
    ((l.map fun x => (x, [mid])).find? (fun e => e.1 = v)) = some (v, [mid]) := by
  intro l
  induction l with
  | nil => intro h; simp at h
  | cons x l ih =>
    intro hv
    by_cases hx : x = v
    · subst hx
      simp [List.find?_cons]
    · have hv' : v ∈ l := by
        rcases List.mem_cons.mp hv with h | h
        · exact absurd h.symm hx
        · exact h
      simp only [List.map_cons]
      rw [List.find?_cons_of_neg _ (by simpa using hx)]
      exact ih hv'

theorem handleMethod_step (mid u : Nat) (rest called : List Nat) (wr : List (Nat × List Nat))
    (log : List (Nat × Option RejectErr))
    (hcall : called.contains u = false)
    (hwr : wr.find? (fun e => e.1 = u) = some (u, [mid]))
    (hnotin : u ∉ rest) :
    handleMethod ⟨false, [(mid, u :: rest)], called, wr, log, [], [], 0⟩ mid =
      ⟨false, [(mid, rest)], called ++ [u], wr, log ++ [(u, none)], [], [], 0⟩ := by
  have hget : cmGet [(mid, u :: rest)] mid = u :: rest := by
    simp [cmGet]
  have hfil : (u :: rest).filter (fun x => x ≠ u) = rest := by
    rw [List.filter_cons, if_neg (by simp)]
    refine List.filter_eq_self.mpr ?_
    intro a ha
    have hne : a ≠ u := by
      intro haeq
      exact hnotin (haeq ▸ ha)
    simpa using hne
  unfold handleMethod
  rw [if_neg (by simp), hget]
  rw [if_pos (by simp : (u :: rest).length ≠ 0)]
  rw [pickWaiter_eq_head, List.head?_cons]
  show runCallback ⟨false, [(mid, u :: rest)], called, wr, log, [], [], 0⟩ u none = _
  unfold runCallback
  rw [if_neg (by rw [hcall]; simp)]
  unfold clearWaiter
  simp only [hwr]
  simp [cmRemove, hfil]
  intro a ha haeq
  exact hnotin (haeq ▸ ha)

theorem handleK_spec (mid : Nat) : ∀ (k : Nat) (rest called : List Nat)
    (wr : List (Nat × List Nat)) (log : List (Nat × Option RejectErr)),
    k ≤ rest.length → rest.Nodup →
    (∀ w ∈ rest, called.contains w = false) →
    (∀ w ∈ rest, wr.find? (fun e => e.1 = w) = some (w, [mid])) →
    handleK mid ⟨false, [(mid, rest)], called, wr, log, [], [], 0⟩ k =
      ⟨false, [(mid, rest.drop k)], called ++ rest.take k, wr,
        log ++ (rest.take k).map (fun w => (w, none)), [], [], 0⟩ := by
  intro k
  induction k with
  | zero =>
    intro rest called wr log _ _ _ _
    simp [handleK]
  | succ k ih =>
    intro rest called wr log hk hnd hcalled hwr
    rcases rest with _ | ⟨u, rest⟩
    · simp at hk
    · show handleK mid (handleMethod ⟨false, [(mid, u :: rest)], called, wr, log, [], [], 0⟩ mid) k = _
      rw [handleMethod_step mid u rest called wr log (hcalled u (by simp))
        (hwr u (by simp)) (by simpa using (List.nodup_cons.mp hnd).1)]
      have hnd2 : rest.Nodup := (List.nodup_cons.mp hnd).2
      have hcalled2 : ∀ w ∈ rest, (called ++ [u]).contains w = false := by
        intro w hw
        have h1 : called.contains w = false := hcalled w (by simp [hw])
        have h2 : w ≠ u := by
          intro heq
          exact (List.nodup_cons.mp hnd).1 (heq ▸ hw)
        have hm1 : w ∉ called := by simpa using h1
        have hmem : w ∉ called ++ [u] := by
          simp only [List.mem_append, List.mem_singleton]
          rintro (hmem | rfl)
          · exact hm1 hmem
          · exact h2 rfl
        simpa using hmem
      have hwr2 : ∀ w ∈ rest, wr.find? (fun e => e.1 = w) = some (w, [mid]) :=
        fun w hw => hwr w (by simp [hw])
      rw [ih rest (called ++ [u]) wr (log ++ [(u, none)]) (by simpa using hk) hnd2
        hcalled2 hwr2]
      simp

/-- Claim C6: when several `call_api` waiters are pending on the same reply
method id, each inbound reply frame resolves the earliest-registered
still-pending waiter, so `k` successive replies settle the first `k`
waiters in registration order, for every number of concurrent waiters.
(`handle_method` picks `Array.from(keys).sort()[0]`, which is the first
insertion-ordered key because all `UniqueId`s stringify identically and
the sort is stable; each resolution deregisters that waiter.) -/
theorem c6_fifo_waiters (mid : Nat) (ws : List Nat) (k : Nat) (hnd : ws.Nodup)
    (hk : k ≤ ws.length) :
    (handleK mid (registerAll mid ws) k).resolved =
      (ws.take k).map (fun w => (w, (none : Option RejectErr))) := by
  rcases ws with _ | ⟨w, ws2⟩
  · have hk0 : k = 0 := by simpa using hk
    subst hk0
    rfl
  · rw [registerAll_cons_eq]
    rw [handleK_spec mid k (w :: ws2) [] ((w :: ws2).map fun x => (x, [mid])) [] hk hnd
      (by intro v hv; rfl) (fun v hv => find?_map_pair mid v (w :: ws2) hv)]
    simp

/-- Witness for C6: three waiters 10, 20, 30 on one id; two replies resolve
10 then 20, in registration order. -/
theorem c6_fifo_waiters_witness :
    (handleK 99 (registerAll 99 [10, 20, 30]) 2).resolved =
      [(10, (none : Option RejectErr)), (20, none)] := by
  have h := c6_fifo_waiters 99 [10, 20, 30] 2 (by decide) (by decide)
  simpa using h

/-! ## Claim C10 (destroy settles every pending waiter once; destroyed channels ignore frames) -/

theorem clearWaiter_called (st : ChanState) (x : Nat) :
    (clearWaiter st x).called = st.called := rfl

theorem clearWaiter_resolved (st : ChanState) (x : Nat) :
    (clearWaiter st x).resolved = st.resolved := rfl

theorem runCallback_called_preserve (st : ChanState) (x w : Nat) (r : Option RejectErr)
    (h : st.called.contains w = true) : (runCallback st x r).called.contains w = true := by
  unfold runCallback
  split
  · exact h
  · show (st.called ++ [x]).contains w = true
    have hm : w ∈ st.called := by simpa using h
    have hm2 : w ∈ st.called ++ [x] := List.mem_append.mpr (Or.inl hm)
    simpa using hm2

theorem runCallback_resolved_shape (st : ChanState) (x : Nat) (r : Option RejectErr) :
    (runCallback st x r).resolved = st.resolved ∨
    ((runCallback st x r).resolved = st.resolved ++ [(x, r)] ∧ st.called.contains x = false) := by
  unfold runCallback
  split
  · exact Or.inl rfl
  · next hx =>
    right
    constructor
    · rfl
    · simpa using hx

theorem countP_runCallback_of_called (Q : Nat × Option RejectErr → Bool) (st : ChanState)
    (x w : Nat) (e : RejectErr) (hQ : ∀ o, Q (o, some e) = decide (o = w))
    (h : st.called.contains w = true) :
    ((runCallback st x (some e)).resolved).countP Q = st.resolved.countP Q := by
  rcases runCallback_resolved_shape st x (some e) with hs | ⟨hs, hx⟩
  · rw [hs]
  · rw [hs, List.countP_append]
    have hxw : x ≠ w := by
      intro heq
      subst heq
      rw [h] at hx
      exact Bool.true_eq_false.mp hx
    simp [hQ x, hxw]

theorem countP_foldRC_of_called (Q : Nat × Option RejectErr → Bool) (e : RejectErr)
    (w : Nat) (hQ : ∀ o, Q (o, some e) = decide (o = w)) :
    ∀ (occs : List Nat) (st : ChanState), st.called.contains w = true →
    ((occs.foldl (fun s y => runCallback s y (some e)) st).resolved).countP Q =
      st.resolved.countP Q := by
  intro occs
  induction occs with
  | nil => intro st h; rfl
  | cons o rest ih =>
    intro st h
    show ((rest.foldl _ (runCallback st o (some e))).resolved).countP Q = _
    rw [ih (runCallback st o (some e)) (runCallback_called_preserve st o w (some e) h)]
    exact countP_runCallback_of_called Q st o w e hQ h

theorem countP_foldRC_main (Q : Nat × Option RejectErr → Bool) (e : RejectErr)
    (w : Nat) (hQ : ∀ o, Q (o, some e) = decide (o = w)) :
    ∀ (occs : List Nat) (st : ChanState), w ∈ occs → st.called.contains w = false →
    ((occs.foldl (fun s y => runCallback s y (some e)) st).resolved).countP Q =
      st.resolved.countP Q + 1 := by
  intro occs
  induction occs with
  | nil => intro st h; simp at h
  | cons o rest ih =>
    intro st hw hc
    show ((rest.foldl _ (runCallback st o (some e))).resolved).countP Q = _
    by_cases ho : o = w
    · subst ho
      have hres : (runCallback st o (some e)).resolved = st.resolved ++ [(o, some e)] := by
        unfold runCallback
        rw [if_neg (by rw [hc]; simp)]
        rfl
      have hcalled : (runCallback st o (some e)).called.contains o = true := by
        unfold runCallback
        rw [if_neg (by rw [hc]; simp)]
        show (st.called ++ [o]).contains o = true
        simp
      rw [countP_foldRC_of_called Q e o hQ rest (runCallback st o (some e)) hcalled]
      rw [hres, List.countP_append]
      simp [hQ o]
    · have hw2 : w ∈ rest := by
        rcases List.mem_cons.mp hw with h | h
        · exact absurd h.symm ho
        · exact h
      have hcp : ((runCallback st o (some e)).resolved).countP Q = st.resolved.countP Q := by
        rcases runCallback_resolved_shape st o (some e) with hs | ⟨hs, _⟩
        · rw [hs]
        · rw [hs, List.countP_append]
          simp [hQ o, ho]
      have hcw : (runCallback st o (some e)).called.contains w = false := by
        unfold runCallback
        split
        · exact hc
        · show (st.called ++ [o]).contains w = false
          have hm : w ∉ st.called ++ [o] := by
            simp only [List.mem_append, List.mem_singleton]
            rintro (hmem | rfl)
            · exact (by simpa using hc : w ∉ st.called) hmem
            · exact ho rfl
          simpa using hm
      rw [ih (runCallback st o (some e)) hw2 hcw, hcp]

/-- Claim C10: after `destroy(error)` has run, every waiter that was
pending (registered, not yet settled) is settled exactly once — the count
of its entries in the settlement log rises by exactly one — and that
settlement carries the given error (or the default `connection_forced`
"Channel or connection closed" error when none is given); afterwards the
channel is marked destroyed and `handle_method` is a no-op: it resolves no
waiter, invokes no handler, and leaves the state unchanged. -/
theorem c10_destroy_rejects_once (st : ChanState) (err : Option Nat) (w : Nat)
    (hw : w ∈ (st.reqs.map (fun r => r.2)).flatten)
    (hc : st.called.contains w = false) :
    ((destroyChan st err).resolved).countP (fun p => p.1 = w) =
      st.resolved.countP (fun p => p.1 = w) + 1 ∧
    ((destroyChan st err).resolved).countP (fun p => p = (w, some (rejectErrOf err))) =
      st.resolved.countP (fun p => p = (w, some (rejectErrOf err))) + 1 ∧
    (destroyChan st err).destroyed = true ∧
    (∀ mid, handleMethod (destroyChan st err) mid = destroyChan st err) := by
  have hd : (destroyChan st err).resolved =
      (((st.reqs.map (fun r => r.2)).flatten).foldl
        (fun s y => runCallback s y (some (rejectErrOf err))) st).resolved := rfl
  refine ⟨?_, ?_, rfl, ?_⟩
  · rw [hd]
    exact countP_foldRC_main _ (rejectErrOf err) w (fun o => rfl) _ st hw hc
  · rw [hd]
    refine countP_foldRC_main _ (rejectErrOf err) w ?_ _ st hw hc
    intro o
    refine decide_eq_decide.mpr ?_
    constructor
    · intro h
      exact congrArg Prod.fst h
    · intro h
      rw [h]
  · intro mid
    have hdd : (destroyChan st err).destroyed = true := rfl
    unfold handleMethod
    rw [if_pos hdd]

/-- Witness for C10: two waiters pending on id 99; destroy with error 5
settles waiter 10 exactly once, marks the channel destroyed, and a later
frame of id 99 changes nothing. -/
theorem c10_destroy_rejects_once_witness :
    ((destroyChan (registerAll 99 [10, 20]) (some 5)).resolved).countP
      (fun p => p.1 = 10) = 1 ∧
    (destroyChan (registerAll 99 [10, 20]) (some 5)).destroyed = true ∧
    handleMethod (destroyChan (registerAll 99 [10, 20]) (some 5)) 99 =
      destroyChan (registerAll 99 [10, 20]) (some 5) := by
  have h := c10_destroy_rejects_once (registerAll 99 [10, 20]) (some 5) 10 (by decide)
    (by decide)
  exact ⟨by simpa using h.1, h.2.2.1, h.2.2.2 99⟩
